import Mathlib

/-!
Verification of the git-heatmap plugin (src/main.ts) against its
natural-language specification.

Dates are modelled as day indices counted from 1970-01-01 (the JS epoch used
by the source through the Date object).  A JS Date built by setDate day
stepping advances one calendar day per unit, so the weekday of day index d is
(d + 4) % 7 (1970-01-01 was a Thursday and JS getDay returns 0 for Sunday),
and the 0-based month of d is computed by the standard civil-from-days
algorithm, mirroring Date.prototype.getMonth.
-/

/-- Weekday of a day index (days since 1970-01-01), as JS Date.getDay:
0 = Sunday, ..., 6 = Saturday.  1970-01-01 was a Thursday (4). -/
def weekday (d : Nat) : Nat := (d + 4) % 7

/-- Zero-based Gregorian month (as JS Date.getMonth) of a day index counted
from 1970-01-01, via the civil-from-days algorithm. -/
def getMonth (z : Nat) : Nat :=
  let zs := z + 719468
  let doe := zs % 146097
  let yoe := (doe - doe / 1460 + doe / 36524 - doe / 146097) / 365
  let doy := doe - (365 * yoe + yoe / 4 - yoe / 100)
  let mp := (5 * doy + 2) / 153
  (if mp < 10 then mp + 3 else mp - 9) - 1

/-- Model of main.ts renderHeatmap line 137:
totalWeeks = Math.ceil((displayDays + startDayOfWeek) / 7); for natural
numbers the ceiling of n / 7 is (n + 6) / 7 in truncated division. -/
def totalWeeks (displayDays s : Nat) : Nat := (displayDays + s + 6) / 7

/-- Model of the cell-placement loop of renderHeatmap (main.ts lines 184-237):
day offset i is placed at row = currentDate.getDay() = weekday (start + i)
and col = Math.floor((i + startDayOfWeek) / 7).  The list collects the
(row, col) position assigned to each offset i in [0, displayDays). -/
def gridCells (start displayDays : Nat) : List (Nat × Nat) :=
  (List.range displayDays).map
    (fun i => (weekday (start + i), (i + weekday start) / 7))

/-- A grid position (r, c) is populated when some day offset of the render
loop stored its rect and meta there (gridRects[row][col] and
gridMeta[row][col] are always assigned together, main.ts lines 226-227). -/
def gridPopulated (start displayDays : Nat) (r c : Nat) : Bool :=
  (List.range displayDays).any
    (fun i => weekday (start + i) == r && (i + weekday start) / 7 == c)

/-- Model of the intensity-level computation of renderHeatmap
(main.ts lines 210-214): a chain of reassignments
level = 0; if count > 0 level = 1; if count > 3 level = 2;
if count > 6 level = 3; if count > 10 level = 4. -/
def colorLevel (count : Nat) : Nat :=
  let level := 0
  let level := if count > 0 then 1 else level
  let level := if count > 3 then 2 else level
  let level := if count > 6 then 3 else level
  let level := if count > 10 then 4 else level
  level

/-! Selection controller (main.ts lines 152-166 selectCell, 279-304
keyHandler and the default selection).  The selection state is the
currentPos pair (the active rect always mirrors it, both being written only
inside selectCell after its populated-cell guard passes). -/

/-- Model of selectCell (main.ts lines 152-166): if the target position has
no stored rect or meta the function returns before touching any selection
state; otherwise the selection moves to (r, c). -/
def selectCell (pop : Nat → Nat → Bool) (st : Nat × Nat) (r c : Nat) :
    Nat × Nat :=
  if pop r c then (r, c) else st

/-- Keys distinguished by the keydown handler; every other key takes the
early return at main.ts line 292. -/
inductive Key where
  | arrowUp
  | arrowDown
  | arrowLeft
  | arrowRight
  | other
deriving DecidableEq

/-- The clamped target of one arrow press (main.ts lines 288-291).
Math.max(0, n - 1) on a non-negative integer is truncated subtraction. -/
def clampTarget (tw : Nat) (st : Nat × Nat) (k : Key) : Nat × Nat :=
  match k with
  | Key.arrowUp => (st.1 - 1, st.2)
  | Key.arrowDown => (min 6 (st.1 + 1), st.2)
  | Key.arrowLeft => (st.1, st.2 - 1)
  | Key.arrowRight => (st.1, min (tw - 1) (st.2 + 1))
  | Key.other => st

/-- Model of the guard at main.ts line 296: selectCell is invoked only when
the clamped target differs from the current position. -/
def moveTo (pop : Nat → Nat → Bool) (st : Nat × Nat) (q : Nat × Nat) :
    Nat × Nat :=
  if q.1 = st.1 ∧ q.2 = st.2 then st else selectCell pop st q.1 q.2

/-- Model of one keydown event (main.ts lines 279-299): non-arrow keys
return immediately; arrow keys clamp and then select when the target moved. -/
def keyStep (tw : Nat) (pop : Nat → Nat → Bool) (st : Nat × Nat) (k : Key) :
    Nat × Nat :=
  match k with
  | Key.other => st
  | k => moveTo pop st (clampTarget tw st k)

/-- Model of the default selection at the end of a render
(main.ts line 304): selectCell(startDayOfWeek, totalWeeks - 1). -/
def defaultSelect (start displayDays : Nat) (st : Nat × Nat) : Nat × Nat :=
  selectCell (gridPopulated start displayDays) st (weekday start)
    (totalWeeks displayDays (weekday start) - 1)

/-! Month-boundary labels (main.ts lines 183-205).  The loop keeps a
lastMonth variable initialised to -1 and emits the month name exactly when
((col === 0 && i === 0) || row === 0) && currentMonth !== lastMonth,
then overwrites lastMonth with the emitted month. -/

/-- One iteration of the month-label logic for day offset i; the
accumulator is (emitted months so far, lastMonth). -/
def monthStep (start s : Nat) (acc : List Nat × Int) (i : Nat) :
    List Nat × Int :=
  let row := weekday (start + i)
  let col := (i + s) / 7
  let m := getMonth (start + i)
  if ((col = 0 ∧ i = 0) ∨ row = 0) ∧ (m : Int) ≠ acc.2 then
    (acc.1 ++ [m], (m : Int))
  else acc

/-- The sequence of month values emitted as labels by a full render pass,
in emission order. -/
def monthLabels (start displayDays : Nat) : List Nat :=
  ((List.range displayDays).foldl (monthStep start (weekday start))
    ([], -1)).1

/-! Log reader and aggregator (main.ts lines 91-112, 347-364).  JS strings
are modelled as lists of characters so that every text operation is
executable by the kernel; jsTrim and jsSplit below model the JS builtins
String.prototype.trim and String.prototype.split (with a non-empty
separator), which the source relies on. -/

/-- A JS string, as the list of its characters. -/
abbrev Str := List Char

/-- Model of the JS builtin String.prototype.trim: remove leading and
trailing whitespace. -/
def jsTrim (s : Str) : Str :=
  ((s.dropWhile Char.isWhitespace).reverse.dropWhile Char.isWhitespace).reverse

/-- Remainder of s after the separator, when the separator occurs at the
front of s. -/
def dropSep (sep s : Str) : Option Str :=
  match sep, s with
  | [], s => some s
  | _ :: _, [] => none
  | c :: cs, d :: ds => if c = d then dropSep cs ds else none

/-- Fuelled scanner for jsSplit: scan left to right, cutting at every
non-overlapping occurrence of the separator; cur holds the characters of
the current field in reverse.  The fuel is only a structural-recursion
device; jsSplit hands it enough for the whole input. -/
def jsSplitGo (sep : Str) (fuel : Nat) (s cur : Str) (acc : List Str) :
    List Str :=
  match fuel with
  | 0 => acc ++ [cur.reverse]
  | fuel + 1 =>
    match s with
    | [] => acc ++ [cur.reverse]
    | c :: rest =>
      match dropSep sep s with
      | some rem => jsSplitGo sep fuel rem [] (acc ++ [cur.reverse])
      | none => jsSplitGo sep fuel rest (c :: cur) acc

/-- Model of the JS builtin String.prototype.split with a non-empty
separator: the fields between the non-overlapping left-to-right occurrences
of the separator, in order; an input with no occurrence yields a single
field, so the result is never empty. -/
def jsSplit (sep s : Str) : List Str :=
  jsSplitGo sep (s.length + 1) s [] []

/-- One commit record of the per-date detail query (main.ts lines 4-9). -/
structure CommitDetail where
  hash : Str
  message : Str
  author : Str
  date : Str
deriving DecidableEq, Repr

/-- Model of the getGitLog promise executor (main.ts lines 97-100): the
exec callback receives an error flag and the produced stdout text;
err && !stdout rejects with "No Git Log", anything else resolves
stdout || "" (the empty string is the only falsy string). -/
def getGitLog (err : Bool) (stdout : Str) : Except String Str :=
  if err && stdout == [] then Except.error "No Git Log"
  else Except.ok (if stdout == [] then [] else stdout)

/-- The field separator of the detail query (main.ts line 349). -/
def fieldSeparator : Str := ['§', '§', '§']

/-- The line separator used by both parsers. -/
def newlineSep : Str := ['\n']

/-- The body of the detail-parsing forEach of getCommitsForDate (main.ts
lines 354-360): skip a line whose trim is empty, split it on the separator
and push a record when it has at least 4 fields. -/
def detailStep (commits : List CommitDetail) (line : Str) :
    List CommitDetail :=
  if jsTrim line = [] then commits
  else
    let parts := jsSplit fieldSeparator line
    if 4 ≤ parts.length then
      commits ++ [{ hash := parts.getD 0 [], message := parts.getD 1 [],
                    author := parts.getD 2 [], date := parts.getD 3 [] }]
    else commits

/-- Model of the detail-parsing loop of getCommitsForDate (main.ts lines
354-360): split stdout on newlines and run detailStep over the lines in
input order. -/
def parseDetails (stdout : Str) : List CommitDetail :=
  (jsSplit newlineSep stdout).foldl detailStep []

/-- Per-line statement of the detail-parsing contract, following the spec
words: a line is kept exactly when it is not blank and splits into at
least 4 delimited fields, in which case fields 1-4 become hash, message,
author and date; every other line is dropped. -/
def specDetailOfLine (line : Str) : Option CommitDetail :=
  if jsTrim line = [] then none
  else
    let parts := jsSplit fieldSeparator line
    if 4 ≤ parts.length then
      some { hash := parts.getD 0 [], message := parts.getD 1 [],
             author := parts.getD 2 [], date := parts.getD 3 [] }
    else none

/-- Model of the getCommitsForDate promise executor (main.ts lines 351-362):
it only ever resolves; err || !stdout resolves the empty list, otherwise it
resolves the parsed records. -/
def getCommitsForDate (err : Bool) (stdout : Str) : List CommitDetail :=
  if err || stdout == [] then [] else parseDetails stdout

/-- First-match lookup in an insertion-ordered association list, the get
operation of the JS Map built by parseGitLog. -/
def mapGet (m : List (Str × Nat)) (k : Str) : Option Nat :=
  match m with
  | [] => none
  | (k1, v) :: rest => if k1 = k then some v else mapGet rest k

/-- Update-or-append in an insertion-ordered association list, the set
operation of the JS Map built by parseGitLog. -/
def mapSet (m : List (Str × Nat)) (k : Str) (v : Nat) : List (Str × Nat) :=
  match m with
  | [] => [(k, v)]
  | (k1, v1) :: rest =>
    if k1 = k then (k, v) :: rest else (k1, v1) :: mapSet rest k v

/-- The body of the aggregation forEach of parseGitLog (main.ts lines
107-110): increment stats.get(cleanDate) || 0 at key cleanDate = trim of
the line. -/
def logStep (stats : List (Str × Nat)) (date : Str) : List (Str × Nat) :=
  let cleanDate := jsTrim date
  mapSet stats cleanDate ((mapGet stats cleanDate).getD 0 + 1)

/-- Model of parseGitLog (main.ts lines 104-112) on an already split list
of lines: keep the lines whose trim is non-empty, then fold them into the
map with logStep. -/
def parseGitLogLines (lines : List Str) : List (Str × Nat) :=
  (lines.filter (fun l => jsTrim l != [])).foldl logStep []

/-- Model of parseGitLog (main.ts lines 104-112): log.split-on-newline then
aggregate. -/
def parseGitLog (log : Str) : List (Str × Nat) :=
  parseGitLogLines (jsSplit newlineSep log)

/-! Settings surface (main.ts lines 370-379): the Default Days text field
stores parseInt(v) || 365 on every change. -/

/-- Numeric value of a character as a digit, 99 when it is no hexadecimal
digit (so it never passes a radix test). -/
def hexVal (c : Char) : Nat :=
  if '0' ≤ c ∧ c ≤ '9' then c.toNat - 48
  else if 'a' ≤ c ∧ c ≤ 'f' then c.toNat - 87
  else if 'A' ≤ c ∧ c ≤ 'F' then c.toNat - 55
  else 99

/-- Longest-prefix digit run in the given radix; none when no digit was
consumed (the NaN case of parseInt). -/
def parseDigits (base : Nat) (cs : List Char) (acc : Nat) (seen : Bool) :
    Option Nat :=
  match cs with
  | [] => if seen then some acc else none
  | c :: rest =>
    if hexVal c < base then parseDigits base rest (acc * base + hexVal c) true
    else if seen then some acc else none

/-- Model of the JS builtin parseInt with no radix argument, as used at
main.ts line 375: strip surrounding whitespace, read an optional sign, use
radix 16 after a 0x/0X head and 10 otherwise, consume the longest digit
run, and produce NaN (none) when no digit was read. -/
def jsParseInt (s : Str) : Option Int :=
  let cs0 := jsTrim s
  let signed : Bool × Str :=
    match cs0 with
    | '-' :: rest => (true, rest)
    | '+' :: rest => (false, rest)
    | cs => (false, cs)
  let based : Nat × Str :=
    match signed.2 with
    | '0' :: 'x' :: rest => (16, rest)
    | '0' :: 'X' :: rest => (16, rest)
    | cs => (10, cs)
  match parseDigits based.1 based.2 0 false with
  | none => none
  | some n => some (if signed.1 then -(n : Int) else (n : Int))

/-- Model of the Default Days onChange handler (main.ts lines 374-376):
the stored value becomes parseInt(v) || 365, so NaN and 0 fall back to 365
and every other parsed integer is stored as is. -/
def settingsOnChange (v : Str) : Int :=
  match jsParseInt v with
  | none => 365
  | some n => if n = 0 then 365 else n

/-- The stored defaultDays after a sequence of edits of the Default Days
field, starting from the default 365; each change overwrites the stored
value with settingsOnChange of the new text. -/
def settingsAfter (edits : List Str) : Int :=
  edits.foldl (fun _ v => settingsOnChange v) 365

/-! Helper lemmas. -/

/-- The let-chain of reassignments in colorLevel collapses to a nested
conditional. -/
theorem colorLevel_eq (count : Nat) :
    colorLevel count =
      if count > 10 then 4 else if count > 6 then 3
      else if count > 3 then 2 else if count > 0 then 1 else 0 := rfl

/-- Bool-level membership characterisation of a populated grid position. -/
theorem gridPopulated_iff (start displayDays r c : Nat) :
    gridPopulated start displayDays r c = true ↔
      ∃ i, i < displayDays ∧ weekday (start + i) = r ∧
        (i + weekday start) / 7 = c := by
  simp only [gridPopulated, List.any_eq_true, List.mem_range,
    Bool.and_eq_true, beq_iff_eq]

/-! Claim theorems. -/

/-- C1: for every positive displayDays and any anchor date, the layout
loop assigns one (row, col) pair per day offset, producing exactly
displayDays pairwise distinct populated cells whose columns all lie below
totalWeeks = ceil((displayDays + startWeekday) / 7); a window of one day
still yields a one-cell grid since the produced cell list has length
displayDays. -/
theorem layout_populates_exactly (start displayDays : Nat)
    (hD : 0 < displayDays) :
    (gridCells start displayDays).length = displayDays ∧
    (gridCells start displayDays).Nodup ∧
    (∀ p ∈ gridCells start displayDays,
      p.2 ≤ totalWeeks displayDays (weekday start) - 1) ∧
    1 ≤ totalWeeks displayDays (weekday start) := by
  refine ⟨by simp [gridCells], ?_, ?_, ?_⟩
  · refine List.Nodup.map_on ?_ (List.nodup_range displayDays)
    intro i hi j hj hij
    simp only [List.mem_range] at hi hj
    simp only [Prod.mk.injEq, weekday] at hij
    omega
  · intro p hp
    simp only [gridCells, List.mem_map, List.mem_range] at hp
    obtain ⟨i, hi, rfl⟩ := hp
    simp only [totalWeeks, weekday]
    omega
  · simp only [totalWeeks]
    omega

/-- Witness for C1 at start = 0, displayDays = 10. -/
theorem layout_populates_exactly_w :
    (gridCells 0 10).length = 10 ∧
    (gridCells 0 10).Nodup ∧
    (∀ p ∈ gridCells 0 10, p.2 ≤ totalWeeks 10 (weekday 0) - 1) ∧
    1 ≤ totalWeeks 10 (weekday 0) :=
  layout_populates_exactly 0 10 (by decide)

/-- C2 counterexample: for displayDays = 2 with the window starting on day
index 2 (1970-01-03, a Saturday, so startWeekday = 6 and the anchor date is
the Sunday 1970-01-04), totalWeeks = 2 and the default selection targets
(6, 1); no day offset populates that position, so the default select call
hits the unpopulated early return and leaves the selection unchanged. -/
theorem default_selection_unpopulated_cex :
    weekday 2 = 6 ∧
    totalWeeks 2 (weekday 2) = 2 ∧
    gridPopulated 2 2 (weekday 2) (totalWeeks 2 (weekday 2) - 1) = false ∧
    defaultSelect 2 2 (0, 0) = (0, 0) := by decide

/-- C2 (amended): the default selection performed at the end of a render is
the select call at (startWeekday, totalWeeks - 1); that position is a
populated cell exactly when 7 * (totalWeeks - 1) < displayDays, which holds
in particular whenever displayDays % 7 = 1 (such as the default 365-day
window), but fails for other window lengths at some anchors, in which case
the default select call hits the unpopulated early return. -/
theorem default_selection_populated_iff (start displayDays : Nat)
    (hD : 0 < displayDays) :
    (gridPopulated start displayDays (weekday start)
        (totalWeeks displayDays (weekday start) - 1) = true ↔
      7 * (totalWeeks displayDays (weekday start) - 1) < displayDays) ∧
    (displayDays % 7 = 1 →
      gridPopulated start displayDays (weekday start)
        (totalWeeks displayDays (weekday start) - 1) = true) := by
  have hlt : weekday start < 7 := Nat.mod_lt _ (by omega)
  have hiff : gridPopulated start displayDays (weekday start)
      (totalWeeks displayDays (weekday start) - 1) = true ↔
      7 * (totalWeeks displayDays (weekday start) - 1) < displayDays := by
    rw [gridPopulated_iff]
    constructor
    · rintro ⟨i, hi, h1, h2⟩
      simp only [weekday, totalWeeks] at *
      omega
    · intro h
      refine ⟨7 * (totalWeeks displayDays (weekday start) - 1), h, ?_, ?_⟩
      · simp only [weekday, totalWeeks] at *
        omega
      · simp only [weekday, totalWeeks] at *
        omega
  refine ⟨hiff, fun h7 => hiff.mpr ?_⟩
  simp only [totalWeeks] at *
  omega

/-- Witness for C2's amended theorem at start = 0, displayDays = 8. -/
theorem default_selection_populated_iff_w :
    (gridPopulated 0 8 (weekday 0) (totalWeeks 8 (weekday 0) - 1) = true ↔
      7 * (totalWeeks 8 (weekday 0) - 1) < 8) ∧
    (8 % 7 = 1 →
      gridPopulated 0 8 (weekday 0) (totalWeeks 8 (weekday 0) - 1) = true) :=
  default_selection_populated_iff 0 8 (by decide)

/-- C3: the computed intensity level is 0 at count 0, 1 on 1-3, 2 on 4-6,
3 on 7-10 and 4 from 11 on; it is monotone in the count and always a valid
index into the 5-entry palette. -/
theorem colorLevel_spec :
    (∀ n : Nat, colorLevel n =
      if n = 0 then 0 else if n ≤ 3 then 1 else if n ≤ 6 then 2
      else if n ≤ 10 then 3 else 4) ∧
    Monotone colorLevel ∧
    (∀ n : Nat, colorLevel n ≤ 4) := by
  refine ⟨?_, ?_, ?_⟩
  · intro n
    rw [colorLevel_eq]
    split_ifs <;> omega
  · intro a b hab
    rw [colorLevel_eq, colorLevel_eq]
    split_ifs <;> omega
  · intro n
    rw [colorLevel_eq]
    split_ifs <;> omega

/-- C4: the selection state machine only ever moves onto populated cells:
selectCell is a no-op on an unpopulated target, one keydown either leaves
the selection unchanged or lands on a populated cell, a populated selection
stays populated, an arrow press whose clamped target equals the current
position (a grid edge) never changes the selection, and when the clamped
target differs and is populated the selection moves exactly there. -/
theorem selection_moves_only_to_populated (pop : Nat → Nat → Bool)
    (tw : Nat) (st : Nat × Nat) (r c : Nat) (k : Key) :
    (pop r c = false → selectCell pop st r c = st) ∧
    (keyStep tw pop st k = st ∨
      pop (keyStep tw pop st k).1 (keyStep tw pop st k).2 = true) ∧
    (pop st.1 st.2 = true →
      pop (keyStep tw pop st k).1 (keyStep tw pop st k).2 = true) ∧
    (clampTarget tw st k = st → keyStep tw pop st k = st) ∧
    (clampTarget tw st k ≠ st →
      pop (clampTarget tw st k).1 (clampTarget tw st k).2 = true →
      keyStep tw pop st k = clampTarget tw st k) := by
  have hsel : pop r c = false → selectCell pop st r c = st := by
    intro h
    simp [selectCell, h]
  have hmove : ∀ q : Nat × Nat,
      moveTo pop st q = st ∨ (moveTo pop st q = q ∧ pop q.1 q.2 = true) := by
    intro q
    unfold moveTo selectCell
    split_ifs with h1 h2
    · exact Or.inl rfl
    · exact Or.inr ⟨rfl, h2⟩
    · exact Or.inl rfl
  have hstep : keyStep tw pop st k = st ∨
      (keyStep tw pop st k = clampTarget tw st k ∧
        pop (clampTarget tw st k).1 (clampTarget tw st k).2 = true) := by
    cases k
    case other => exact Or.inl rfl
    all_goals
      rcases hmove (clampTarget tw st _) with h | ⟨h1, h2⟩
      · exact Or.inl h
      · exact Or.inr ⟨h1, h2⟩
  refine ⟨hsel, ?_, ?_, ?_, ?_⟩
  · rcases hstep with h | ⟨h1, h2⟩
    · exact Or.inl h
    · rw [h1]
      exact Or.inr h2
  · intro hp
    rcases hstep with h | ⟨h1, h2⟩
    · rw [h]
      exact hp
    · rw [h1]
      exact h2
  · intro heq
    cases k
    case other => rfl
    all_goals
      simp only [keyStep, moveTo, heq]
      simp
  · intro hne hp
    have hmove2 : ∀ q : Nat × Nat, q ≠ st → pop q.1 q.2 = true →
        moveTo pop st q = q := by
      intro q hq hp2
      unfold moveTo selectCell
      rw [if_neg fun hc => hq (Prod.ext hc.1 hc.2), if_pos hp2]
    cases k
    case other => exact absurd rfl hne
    all_goals exact hmove2 _ hne hp

/-- Witness for C4: with the two-day grid of the C2 analysis, pop (6, 1)
is false, so a select call aimed there is a no-op. -/
theorem selection_moves_only_to_populated_w :
    selectCell (gridPopulated 2 2) (0, 1) 6 1 = (0, 1) :=
  (selection_moves_only_to_populated (gridPopulated 2 2) 2 (0, 1) 6 1
    Key.other).1 (by decide)

/-- Invariant of the month-label fold: the emitted list has pairwise
distinct neighbours and lastMonth equals the most recently emitted month
whenever one exists. -/
theorem monthStep_foldl_invariant (start s : Nat) (l : List Nat) :
    ∀ acc : List Nat × Int,
      acc.1.Chain' (fun a b => a ≠ b) →
      (∀ x, acc.1.getLast? = some x → (x : Int) = acc.2) →
      (l.foldl (monthStep start s) acc).1.Chain' (fun a b => a ≠ b) ∧
      (∀ x, (l.foldl (monthStep start s) acc).1.getLast? = some x →
        (x : Int) = (l.foldl (monthStep start s) acc).2) := by
  induction l with
  | nil => exact fun acc h1 h2 => ⟨h1, h2⟩
  | cons i l ih =>
    intro acc h1 h2
    simp only [List.foldl_cons]
    by_cases hc : (((i + s) / 7 = 0 ∧ i = 0) ∨ weekday (start + i) = 0) ∧
        ((getMonth (start + i) : Int) ≠ acc.2)
    · have hstep : monthStep start s acc i =
          (acc.1 ++ [getMonth (start + i)], (getMonth (start + i) : Int)) := by
        unfold monthStep
        rw [if_pos hc]
      rw [hstep]
      refine ih _ ?_ ?_
      · rw [List.chain'_append]
        refine ⟨h1, List.chain'_singleton _, ?_⟩
        intro x hx y hy
        simp only [List.head?_cons, Option.mem_def, Option.some.injEq] at hy
        subst hy
        intro hxy
        exact hc.2 (hxy ▸ h2 x hx)
      · intro x hx
        rw [List.getLast?_concat] at hx
        simp only [Option.some.injEq] at hx
        subst hx
        rfl
    · have hstep : monthStep start s acc i = acc := by
        unfold monthStep
        rw [if_neg hc]
      rw [hstep]
      exact ih acc h1 h2

/-- C5 (amended): a month label is emitted at day offset i exactly when
((col == 0 and i == 0) or row == 0) holds and the month differs from the
last emitted month; this gating only prevents two consecutive emissions of
the same month value (the emitted sequence has pairwise distinct
neighbours), and over a window spanning more than a year the same month
value is emitted more than once. -/
theorem month_labels_no_adjacent_dup (start displayDays : Nat) :
    (monthLabels start displayDays).Chain' (fun a b => a ≠ b) := by
  unfold monthLabels
  exact (monthStep_foldl_invariant start (weekday start)
    (List.range displayDays) ([], -1) List.chain'_nil (by simp)).1

set_option maxRecDepth 100000 in
/-- C5 counterexample: a 368-day window anchored so that it starts on
1970-01-01 covers January twice (1970 and 1971); the render pass emits the
month value 0 at offset 0 and again at offset 367 (Sunday 1971-01-03), so
the emitted labels are not pairwise distinct and a month name is emitted
twice in one render pass. -/
theorem month_labels_duplicate_cex :
    monthLabels 0 368 = [0, 1, 2, 3, 4, 5, 6, 7, 8, 9, 10, 11, 0] ∧
    ¬ (monthLabels 0 368).Nodup := by
  constructor
  · decide
  · decide

/-- C6: getGitLog rejects with the no-history error exactly when the tool
reported an error and produced no output; whenever any output exists, or no
error occurred, the call succeeds and returns the output unchanged. -/
theorem getGitLog_spec (err : Bool) (stdout : Str) :
    (getGitLog err stdout = Except.error "No Git Log" ↔
      err = true ∧ stdout = []) ∧
    (err = false ∨ stdout ≠ [] → getGitLog err stdout = Except.ok stdout) := by
  cases err <;> by_cases hs : stdout = [] <;>
    simp_all [getGitLog]

/-- Witness for C6: an errored call that still produced output succeeds
with that output. -/
theorem getGitLog_spec_w :
    getGitLog true "abc".toList = Except.ok "abc".toList :=
  (getGitLog_spec true "abc".toList).2 (Or.inr (by decide))

/-- C7: the per-date detail fetch never propagates failure: its executor
only ever resolves (the model is a total function into commit lists), and
on any reported error, or on empty output, it resolves the empty list. -/
theorem getCommitsForDate_no_failure (err : Bool) (stdout : Str)
    (h : err = true ∨ stdout = []) : getCommitsForDate err stdout = [] := by
  rcases h with h | h <;> simp [getCommitsForDate, h]

/-- Witness for C7 at an errored call with non-empty output. -/
theorem getCommitsForDate_no_failure_w :
    getCommitsForDate true "boom".toList = [] :=
  getCommitsForDate_no_failure true "boom".toList (Or.inl rfl)

/-- One pass of detailStep appends exactly the records of the kept lines,
so the imperative push loop is the filterMap of the per-line contract. -/
theorem detailStep_foldl (lines : List Str) :
    ∀ acc : List CommitDetail,
      lines.foldl detailStep acc = acc ++ lines.filterMap specDetailOfLine := by
  induction lines with
  | nil => simp
  | cons line lines ih =>
    intro acc
    have hstep : detailStep acc line =
        acc ++ (specDetailOfLine line).toList := by
      unfold detailStep specDetailOfLine
      by_cases h1 : jsTrim line = [] <;>
        by_cases h2 : 4 ≤ (jsSplit fieldSeparator line).length <;>
        simp [h1, h2]
    simp only [List.foldl_cons, List.filterMap_cons, hstep]
    cases hline : specDetailOfLine line <;>
      simp [ih, hline]

/-- C8: detail parsing drops every blank line and every line with fewer
than 4 delimited fields, and the returned records are exactly those of the
well-formed lines, in input order (the push loop equals the filterMap of
the per-line contract); the sample line from the spec parses to the single
expected record. -/
theorem parseDetails_spec :
    (∀ stdout : Str, parseDetails stdout =
      (jsSplit newlineSep stdout).filterMap specDetailOfLine) ∧
    parseDetails "abc123§§§Fix bug§§§Alice§§§2024-01-05T10:00:00".toList =
      [{ hash := "abc123".toList, message := "Fix bug".toList,
         author := "Alice".toList, date := "2024-01-05T10:00:00".toList }] := by
  have hmain : ∀ stdout : Str, parseDetails stdout =
      (jsSplit newlineSep stdout).filterMap specDetailOfLine := by
    intro stdout
    unfold parseDetails
    rw [detailStep_foldl]
    rfl
  refine ⟨hmain, ?_⟩
  rw [hmain]
  decide

/-- Lookup after a map update: the updated key reads the new value and
every other key is untouched. -/
theorem mapGet_mapSet (m : List (Str × Nat)) (k k1 : Str) (v : Nat) :
    mapGet (mapSet m k v) k1 = if k = k1 then some v else mapGet m k1 := by
  induction m with
  | nil =>
    by_cases h : k = k1 <;> simp [mapSet, mapGet, h]
  | cons p m ih =>
    obtain ⟨k2, v2⟩ := p
    by_cases h2 : k2 = k
    · subst h2
      by_cases h : k2 = k1 <;> simp [mapSet, mapGet, h]
    · by_cases h : k2 = k1
      · subst h
        have hk : ¬ k = k2 := fun hc => h2 hc.symm
        simp [mapSet, mapGet, h2, hk]
      · simp [mapSet, mapGet, h2, h, ih]

/-- The aggregation fold reads back, at every key, the old value plus the
number of folded lines whose trim is that key. -/
theorem logStep_foldl (ms : List Str) :
    ∀ (acc : List (Str × Nat)) (k : Str),
      mapGet (ms.foldl logStep acc) k =
        if ms.countP (fun m => jsTrim m == k) = 0 then mapGet acc k
        else some ((mapGet acc k).getD 0 +
          ms.countP (fun m => jsTrim m == k)) := by
  induction ms with
  | nil => simp
  | cons m ms ih =>
    intro acc k
    simp only [List.foldl_cons, List.countP_cons]
    rw [ih]
    by_cases hm : jsTrim m = k
    · have hget : mapGet (logStep acc m) k =
          some ((mapGet acc k).getD 0 + 1) := by
        unfold logStep
        rw [hm, mapGet_mapSet]
        simp
      simp only [hm, beq_self_eq_true, if_true, hget]
      by_cases hc : ms.countP (fun m => jsTrim m == k) = 0
      · simp [hc]
      · simp only [hc, if_false]
        simp
        omega
    · have hget : mapGet (logStep acc m) k = mapGet acc k := by
        unfold logStep
        rw [mapGet_mapSet, if_neg hm]
      have hbeq : (jsTrim m == k) = false := by
        simp [hm]
      simp [hget, hbeq]

/-- The date-to-count mapping read back from parseGitLogLines counts, at
every key, the lines whose (non-empty) trim equals that key. -/
theorem parseGitLogLines_get (ls : List Str) (k : Str) :
    mapGet (parseGitLogLines ls) k =
      if ls.countP (fun l => jsTrim l == k && jsTrim l != []) = 0 then none
      else some (ls.countP (fun l => jsTrim l == k && jsTrim l != [])) := by
  unfold parseGitLogLines
  rw [logStep_foldl, List.countP_filter]
  simp [mapGet]

/-- C9: the date-to-count mapping of parseGitLog is invariant under any
permutation of the input lines, and (duplicates incrementing one shared
key) each non-empty date key reads back exactly the number of non-blank
input lines whose trimmed content is that date, with absent keys reading
back none. -/
theorem parseGitLog_perm_invariant (ls1 ls2 : List Str)
    (h : ls1.Perm ls2) :
    (∀ k : Str, mapGet (parseGitLogLines ls1) k =
      mapGet (parseGitLogLines ls2) k) ∧
    (∀ k : Str, k ≠ [] →
      mapGet (parseGitLogLines ls1) k =
        if ls1.countP (fun l => jsTrim l == k) = 0 then none
        else some (ls1.countP (fun l => jsTrim l == k))) := by
  constructor
  · intro k
    rw [parseGitLogLines_get, parseGitLogLines_get,
      h.countP_eq (fun l => jsTrim l == k && jsTrim l != [])]
  · intro k hk
    rw [parseGitLogLines_get]
    have hcong : ls1.countP (fun l => jsTrim l == k && jsTrim l != []) =
        ls1.countP (fun l => jsTrim l == k) := by
      refine List.countP_congr ?_
      intro l _
      by_cases hl : jsTrim l = k
      · subst hl
        simp [hk]
      · simp [hl]
    rw [hcong]

/-- Witness for C9: swapping two log lines leaves the mapping unchanged,
and the duplicated date reads back count 2. -/
theorem parseGitLog_perm_invariant_w :
    mapGet (parseGitLogLines
        ["2024-01-03".toList, "2024-01-01".toList, "2024-01-01".toList])
      "2024-01-01".toList =
      mapGet (parseGitLogLines
        ["2024-01-01".toList, "2024-01-03".toList, "2024-01-01".toList])
      "2024-01-01".toList ∧
    mapGet (parseGitLogLines
        ["2024-01-03".toList, "2024-01-01".toList, "2024-01-01".toList])
      "2024-01-01".toList = some 2 := by
  have hperm : List.Perm
      ["2024-01-03".toList, "2024-01-01".toList, "2024-01-01".toList]
      ["2024-01-01".toList, "2024-01-03".toList, "2024-01-01".toList] :=
    List.Perm.swap "2024-01-01".toList "2024-01-03".toList
      ["2024-01-01".toList]
  refine ⟨(parseGitLog_perm_invariant _ _ hperm).1 "2024-01-01".toList, ?_⟩
  rw [(parseGitLog_perm_invariant _ _ hperm).2 "2024-01-01".toList
    (by decide)]
  decide

/-- C10 (code bug): the settings surface stores parseInt(v) || 365, so the
falsy results NaN and 0 fall back to 365, but a negative parse such as
"-5" is truthy and is stored as is, breaking the documented
positive-integer invariant of defaultDays; the initial value and the
fallback cases stay positive. -/
theorem settings_negative_input_bug :
    settingsAfter ["-5".toList] = -5 ∧
    ¬ (0 < settingsAfter ["-5".toList]) ∧
    settingsAfter ["abc".toList] = 365 ∧
    settingsAfter ["0".toList] = 365 ∧
    settingsAfter [] = 365 := by decide
